import Mathlib

/-!
Shallow embedding of the `coreason_protocol` core (PICO protocol state machine
and multi-target query compiler) and verification of its specification claims.

The definitions below are translated from `src/coreason_protocol/types.py`,
`src/coreason_protocol/compiler.py` and `src/coreason_protocol/schema.py`.
Python strings are modelled as Lean `String` (sequences of Unicode scalar
values), Python dicts (insertion ordered) as association lists, raising
functions as `Except String _`, and pydantic checked construction /
`validate_assignment` as explicit smart constructors returning `Except`.
-/

namespace CoreasonProtocol

/-- Origin tag of an ontology term (`TermOrigin` in types.py). -/
inductive TermOrigin where
  | USER_INPUT
  | SYSTEM_EXPANSION
  | HUMAN_INJECTION
deriving DecidableEq, Repr

/-- Protocol lifecycle status (`ProtocolStatus` in types.py). -/
inductive ProtocolStatus where
  | DRAFT
  | PENDING_REVIEW
  | APPROVED
  | EXECUTED
deriving DecidableEq, Repr

/-- ASCII whitespace, as stripped by Python `str.strip()` (the exotic
Unicode whitespace code points are not modelled; no claim exercises
them). -/
def isSpace (c : Char) : Bool :=
  c = ' ' || c = '\x09' || c = '\x0a' || c = '\x0d' || c = '\x0b' || c = '\x0c'

/-- Python `str.strip()`: remove leading and trailing whitespace. -/
def pyStrip (s : String) : String :=
  String.mk (((s.data.dropWhile isSpace).reverse.dropWhile isSpace).reverse)

/-- Python `str.replace(old, new)` for a single-character pattern. -/
def replaceChar (old : Char) (new : List Char) (s : String) : String :=
  String.mk (s.data.flatMap (fun c => if c = old then new else [c]))

/-- Python truthiness-based blank test: `not v or not v.strip()`. -/
def isBlank (v : String) : Bool :=
  v = "" || pyStrip v = ""

/-- A controlled-vocabulary term (`OntologyTerm` in types.py). -/
structure OntologyTerm where
  id : String
  label : String
  vocab_source : String
  code : String
  origin : TermOrigin
  is_active : Bool
  override_reason : Option String
deriving DecidableEq, Repr

/-- Checked construction of `OntologyTerm` as defined in types.py: the only
field validator there is `check_non_empty` on `label`. -/
def mkOntologyTerm (id label vocab_source code : String) (origin : TermOrigin)
    (is_active : Bool) (override_reason : Option String) :
    Except String OntologyTerm :=
  if isBlank label then .error "Field cannot be empty"
  else .ok ⟨id, label, vocab_source, code, origin, is_active, override_reason⟩

/-- A PICO block (`PicoBlock` in types.py). -/
structure PicoBlock where
  block_type : String
  description : String
  terms : List OntologyTerm
  logic_operator : String
deriving DecidableEq, Repr

/-- The `validate_block_type` field validator of types.py. -/
def validateBlockType (v : String) : Except String String :=
  if v = "P" ∨ v = "I" ∨ v = "C" ∨ v = "O" ∨ v = "S" then .ok v
  else .error "block_type must be one of P, I, C, O, S"

/-- The `validate_logic_operator` field validator of types.py. -/
def validateLogicOperator (v : String) : Except String String :=
  if v = "AND" ∨ v = "OR" ∨ v = "NOT" then .ok v
  else .error "logic_operator must be AND, OR, or NOT"

/-- Checked construction of `PicoBlock` as defined in types.py (validators on
`block_type` and `logic_operator` only). -/
def mkPicoBlock (block_type description : String) (terms : List OntologyTerm)
    (logic_operator : String) : Except String PicoBlock :=
  match validateBlockType block_type with
  | .error e => .error e
  | .ok bt =>
    match validateLogicOperator logic_operator with
    | .error e => .error e
    | .ok op => .ok ⟨bt, description, terms, op⟩

/-- A compiled strategy record (`ExecutableStrategy` in types.py, which has no
field validators). -/
structure ExecutableStrategy where
  target : String
  query_string : String
  validation_status : String
deriving DecidableEq, Repr

/-- Audit approval record (`ApprovalRecord` in types.py).  The Python
`datetime` timestamp is abstracted as a `Nat`. -/
structure ApprovalRecord where
  approver_id : String
  timestamp : Nat
  veritas_hash : String
deriving DecidableEq, Repr

/-- Checked construction of `ApprovalRecord` as defined in types.py: its only
field validator is `validate_hash` on `veritas_hash`. -/
def mkApprovalRecord (approver_id : String) (timestamp : Nat)
    (veritas_hash : String) : Except String ApprovalRecord :=
  if isBlank veritas_hash then .error "veritas_hash cannot be empty"
  else .ok ⟨approver_id, timestamp, veritas_hash⟩

/-- The aggregate root (`ProtocolDefinition` in types.py).  The Python dict
`pico_structure` is modelled as an insertion-ordered association list. -/
structure ProtocolDefinition where
  id : String
  title : String
  research_question : String
  pico_structure : List (String × PicoBlock)
  execution_strategies : List ExecutableStrategy
  status : ProtocolStatus
  approval_history : Option ApprovalRecord
deriving DecidableEq, Repr

/-- The `validate_pico_structure` field validator of types.py: every key must
equal the mapped block's own `block_type`; the first mismatch raises. -/
def validatePicoStructure : List (String × PicoBlock) → Except String Unit
  | [] => .ok ()
  | (key, block) :: rest =>
    if key ≠ block.block_type then
      .error ("Key mismatch in pico_structure: Key \x27" ++ key ++
        "\x27 does not match block_type \x27" ++ block.block_type ++ "\x27")
    else validatePicoStructure rest

/-- Checked construction of `ProtocolDefinition` as defined in types.py (its
only field validator is `validate_pico_structure`). -/
def mkProtocolDefinition (id title research_question : String)
    (pico_structure : List (String × PicoBlock))
    (execution_strategies : List ExecutableStrategy)
    (status : ProtocolStatus) (approval_history : Option ApprovalRecord) :
    Except String ProtocolDefinition :=
  match validatePicoStructure pico_structure with
  | .error e => .error e
  | .ok _ => .ok ⟨id, title, research_question, pico_structure,
      execution_strategies, status, approval_history⟩

/-- Assignment to the `pico_structure` field: with
`model_config = ConfigDict(validate_assignment=True)` the field validator is
re-run on every assignment. -/
def setPicoStructure (p : ProtocolDefinition)
    (v : List (String × PicoBlock)) : Except String ProtocolDefinition :=
  match validatePicoStructure v with
  | .error e => .error e
  | .ok _ => .ok { p with pico_structure := v }

/-- Lookup in an insertion-ordered dict (`d[k]` / `k in d`). -/
def dictLookup {α : Type} (d : List (String × α)) (k : String) : Option α :=
  match d with
  | [] => none
  | (key, b) :: rest => if key = k then some b else dictLookup rest k

/-- Membership test on the dict (`k in d`). -/
def dictContains {α : Type} (d : List (String × α)) (k : String) : Bool :=
  (dictLookup d k).isSome

/-- In-place update of the value stored under an existing key `k`
(`d[k].terms.append(...)` mutates the stored block). -/
def dictModify {α : Type} (d : List (String × α)) (k : String)
    (f : α → α) : List (String × α) :=
  match d with
  | [] => []
  | (key, b) :: rest =>
    if key = k then (key, f b) :: rest else (key, b) :: dictModify rest k f

/-- Python `str()` of a `ProtocolStatus` member, used in f-string error
messages. -/
def statusStr : ProtocolStatus → String
  | .DRAFT => "ProtocolStatus.DRAFT"
  | .PENDING_REVIEW => "ProtocolStatus.PENDING_REVIEW"
  | .APPROVED => "ProtocolStatus.APPROVED"
  | .EXECUTED => "ProtocolStatus.EXECUTED"

/-- The `lock` method of `ProtocolDefinition` (types.py lines 206-231).
The external registrar (`veritas_client.register_protocol`) is abstracted as
a function from the serialized protocol to `Except String String`; `now` is
the current timestamp.  The result pairs the raised-or-returned outcome with
the state of `self` after the call, with field assignments threaded exactly
where the source performs them, so that state changes on failure paths are
visible in the embedding. -/
def ProtocolDefinition.lock (p : ProtocolDefinition) (user_id : String)
    (register : ProtocolDefinition → Except String String) (now : Nat) :
    Except String ProtocolDefinition × ProtocolDefinition :=
  if p.status = .APPROVED ∨ p.status = .EXECUTED then
    (.error "Cannot lock a protocol that is already APPROVED or EXECUTED", p)
  else if p.pico_structure = [] then
    (.error "Cannot lock a protocol with an empty PICO structure", p)
  else if p.status ≠ .DRAFT then
    (.error ("Cannot lock protocol in state: " ++ statusStr p.status), p)
  else
    match register p with
    | .error e => (.error e, p)
    | .ok protocol_hash =>
      match mkApprovalRecord user_id now protocol_hash with
      | .error e => (.error e, p)
      | .ok record =>
        let p1 := { p with approval_history := some record }
        let p2 := { p1 with status := ProtocolStatus.APPROVED }
        (.ok p2, p2)

/-- The protocol value produced by a successful `lock` (approval record
set, then status set to APPROVED). -/
def lockSuccess (p : ProtocolDefinition) (u : String) (now : Nat)
    (h : String) : ProtocolDefinition :=
  { p with approval_history := some ⟨u, now, h⟩, status := .APPROVED }

/-- The duplicate scan inside `inject_term`: iterate the blocks in dict
insertion order and, for the first block containing a term whose `id` equals
`tid`, return that block's own `block_type`. -/
def findDupBlock (blocks : List (String × PicoBlock)) (tid : String) :
    Option String :=
  match blocks with
  | [] => none
  | (_, blk) :: rest =>
    if blk.terms.any (fun t => t.id = tid) then some blk.block_type
    else findDupBlock rest tid

/-- The `inject_term` method of `ProtocolDefinition` (types.py lines
270-310), value-level view (object identity of the injected term is treated
separately in the heap model below). -/
def ProtocolDefinition.inject_term (p : ProtocolDefinition)
    (block_type : String) (term : OntologyTerm) :
    Except String ProtocolDefinition :=
  if p.status = .APPROVED then
    .error "Cannot modify protocol in APPROVED state"
  else if p.status = .EXECUTED then
    .error "Cannot modify protocol in EXECUTED state"
  else if p.status ≠ .DRAFT ∧ p.status ≠ .PENDING_REVIEW then
    .error ("Cannot modify protocol in state: " ++ statusStr p.status)
  else
    match findDupBlock p.pico_structure term.id with
    | some bt =>
      if block_type = bt then .ok p
      else .error ("Term ID \x27" ++ term.id ++
        "\x27 already exists in block \x27" ++ bt ++ "\x27")
    | none =>
      let injected : OntologyTerm := { term with origin := .HUMAN_INJECTION }
      let addTerm := fun (b : PicoBlock) => { b with terms := b.terms ++ [injected] }
      if dictContains p.pico_structure block_type then
        let pico2 := dictModify p.pico_structure block_type addTerm
        .ok { p with pico_structure := pico2 }
      else
        match mkPicoBlock block_type block_type [] "OR" with
        | .error e => .error e
        | .ok blk =>
          let pico2 := dictModify (p.pico_structure ++ [(block_type, blk)]) block_type addTerm
          .ok { p with pico_structure := pico2 }

/-- Modelled from the spec: `coreason_protocol/validator.py`
(`ProtocolValidator.validate`) is imported by the repository's tests but the
module itself is not present under src/.  The rules below follow spec
section 4.2 in order (fail fast): (1) required blocks P, I, O present;
(2) each required block non-empty; (3) every active term of every present
block has non-blank label and code; (4) every block's logic_operator is one
of AND, OR, NOT.  Error messages follow the spec and the repository's
validator tests. -/
def ProtocolValidator.validate (p : ProtocolDefinition) :
    Except String Unit :=
  match ["P", "I", "O"].find? (fun bt => !dictContains p.pico_structure bt) with
  | some bt => .error ("Missing required block: \x27" ++ bt ++ "\x27")
  | none =>
    match ["P", "I", "O"].find? (fun bt =>
        match dictLookup p.pico_structure bt with
        | some blk => blk.terms.isEmpty
        | none => false) with
    | some bt => .error ("Block \x27" ++ bt ++ "\x27 cannot be empty")
    | none =>
      match p.pico_structure.find? (fun kb =>
          kb.2.terms.any (fun t => t.is_active && isBlank t.label)) with
      | some kb => .error ("Active term in block \x27" ++ kb.2.block_type ++
          "\x27 has empty label")
      | none =>
        match p.pico_structure.find? (fun kb =>
            kb.2.terms.any (fun t => t.is_active && isBlank t.code)) with
        | some kb => .error ("Active term in block \x27" ++ kb.2.block_type ++
            "\x27 has empty code")
        | none =>
          match p.pico_structure.find? (fun kb =>
              !(kb.2.logic_operator = "AND" ∨ kb.2.logic_operator = "OR" ∨
                kb.2.logic_operator = "NOT")) with
          | some kb => .error ("Block \x27" ++ kb.2.block_type ++
              "\x27 has invalid logic_operator: \x27" ++
              kb.2.logic_operator ++ "\x27")
          | none => .ok ()

namespace SchemaModel

/-- Checked construction of `OntologyTerm` as defined in schema.py, whose
`check_non_empty` validator covers `id`, `label`, `vocab_source` and `code`
(run in field order). -/
def mkOntologyTerm (id label vocab_source code : String) (origin : TermOrigin)
    (is_active : Bool) (override_reason : Option String) :
    Except String OntologyTerm :=
  if isBlank id then .error "Field cannot be empty or whitespace"
  else if isBlank label then .error "Field cannot be empty or whitespace"
  else if isBlank vocab_source then .error "Field cannot be empty or whitespace"
  else if isBlank code then .error "Field cannot be empty or whitespace"
  else .ok ⟨id, label, vocab_source, code, origin, is_active, override_reason⟩

end SchemaModel

/-- Modelled from the spec: the `Target` enum is imported by compiler.py from
`coreason_protocol.types` but is not defined in the types.py present under
src/; the spec (and the compiler registry) name the three targets PUBMED,
LANCEDB and GRAPH. -/
def Target.PUBMED : String := "PUBMED"

/-- Modelled from the spec: see `Target.PUBMED`. -/
def Target.LANCEDB : String := "LANCEDB"

/-- Modelled from the spec: see `Target.PUBMED`. -/
def Target.GRAPH : String := "GRAPH"

/-- Modelled from the spec: the `VocabSource` enum is imported by compiler.py
from `coreason_protocol.types` but is not defined in the types.py present
under src/; per the spec, the MeSH member's value is the string "MeSH". -/
def VocabSource.MESH : String := "MeSH"

/-- Python `sep.join(parts)`. -/
def joinSep (sep : String) : List String → String
  | [] => ""
  | [s] => s
  | s :: rest => s ++ sep ++ joinSep sep rest

mutual

/-- Boolean expression AST built by `PubMedCompiler` (Symbol / NOT / OR /
AND nodes of the `boolean.py` algebra, with ordered argument lists,
here as the mutually-defined `BList` so that all recursion is
structural). -/
inductive BExpr where
  | sym (s : String)
  | bnot (e : BExpr)
  | bor (args : BList)
  | band (args : BList)

/-- Ordered argument list of an OR/AND node. -/
inductive BList where
  | nil
  | cons (e : BExpr) (l : BList)

end

/-- Conversion from a Lean list of subexpressions. -/
def BList.ofList : List BExpr → BList
  | [] => .nil
  | e :: es => .cons e (BList.ofList es)

/-- The `_sanitize_label` helper of `PubMedCompiler`: trim surrounding
whitespace and replace double quotes with single quotes. -/
def sanitizeLabel (label : String) : String :=
  replaceChar '"' ['\x27'] (pyStrip label)

/-- The `_format_pubmed_term` helper of `PubMedCompiler`: MeSH terms get the
`[Mesh]` tag, all others `[TiAb]`. -/
def formatPubmedTerm (t : OntologyTerm) : String :=
  let label := sanitizeLabel t.label
  if t.vocab_source = VocabSource.MESH then "\"" ++ label ++ "\"[Mesh]"
  else "\"" ++ label ++ "\"[TiAb]"

/-- Intra-block combination in `PubMedCompiler.compile`: a single symbol is
used bare; otherwise the block's `logic_operator` chooses OR, AND, or the
NOT interpretation (conjunction of individually negated terms), with an OR
fallback for unknown operators. -/
def pubmedBlockExpr (block : PicoBlock) (term_symbols : List BExpr) : BExpr :=
  match term_symbols with
  | [s] => s
  | syms =>
    if block.logic_operator = "OR" then .bor (BList.ofList syms)
    else if block.logic_operator = "AND" then .band (BList.ofList syms)
    else if block.logic_operator = "NOT" then
      .band (BList.ofList (syms.map .bnot))
    else .bor (BList.ofList syms)

/-- One iteration of the block loop in `PubMedCompiler.compile`: an absent
block or a block with no active terms contributes nothing; otherwise the
block expression is built from the active terms. -/
def pubmedBlockEntry (p : ProtocolDefinition) (block_type : String) :
    Option BExpr :=
  match dictLookup p.pico_structure block_type with
  | none => none
  | some block =>
    let active_terms := block.terms.filter (fun t => t.is_active)
    if active_terms.isEmpty then none
    else some (pubmedBlockExpr block
      (active_terms.map (fun t => BExpr.sym (formatPubmedTerm t))))

/-- The block-expression list built by `PubMedCompiler.compile`: iterate the
canonical order P, I, C, O, S, skip absent blocks and blocks with no active
terms, and build each surviving block's expression from its active terms. -/
def pubmedBlockExprs (p : ProtocolDefinition) : List BExpr :=
  ["P", "I", "C", "O", "S"].filterMap (pubmedBlockEntry p)

mutual

/-- The `_render_pubmed_ast` recursive visitor of `PubMedCompiler`: strictly
parenthesized rendering of every compound node. -/
def renderPubmedAst : BExpr → String
  | .sym s => s
  | .bnot e => "(NOT " ++ renderPubmedAst e ++ ")"
  | .bor args => "(" ++ joinSep " OR " (renderBList args) ++ ")"
  | .band args => "(" ++ joinSep " AND " (renderBList args) ++ ")"

/-- Rendering of each argument of a compound node, in order. -/
def renderBList : BList → List String
  | .nil => []
  | .cons e l => renderPubmedAst e :: renderBList l

end

/-- `PubMedCompiler.compile`: combine the surviving block expressions with
AND (a single surviving block is used unwrapped; zero surviving blocks yield
the empty string) and render. -/
def pubmedCompile (p : ProtocolDefinition) : String :=
  match pubmedBlockExprs p with
  | [] => ""
  | [e] => renderPubmedAst e
  | block_exprs => renderPubmedAst (.band (BList.ofList block_exprs))

/-- Hex digit characters used by Python's `json` encoder (lowercase). -/
def hexDigit (n : Nat) : Char :=
  if n < 10 then Char.ofNat (48 + n) else Char.ofNat (87 + n)

/-- Four-digit lowercase hex rendering of `n < 0x10000`, as in Python's
`\uXXXX` escapes. -/
def toHex4 (n : Nat) : List Char :=
  [hexDigit (n / 4096 % 16), hexDigit (n / 256 % 16),
   hexDigit (n / 16 % 16), hexDigit (n % 16)]

/-- Per-character escaping of Python's `json.dumps` with its default
`ensure_ascii=True`: the two ASCII metacharacters and the five short control
escapes come from the escape table, printable ASCII passes through, and
everything else becomes `\uXXXX` escapes (a surrogate pair for astral code
points). -/
def escChar (c : Char) : List Char :=
  if c = '\\' then ['\\', '\\']
  else if c = '"' then ['\\', '"']
  else if c = '\x08' then ['\\', 'b']
  else if c = '\x0c' then ['\\', 'f']
  else if c = '\x0a' then ['\\', 'n']
  else if c = '\x0d' then ['\\', 'r']
  else if c = '\x09' then ['\\', 't']
  else if 32 ≤ c.toNat ∧ c.toNat ≤ 126 then [c]
  else if c.toNat < 65536 then '\\' :: 'u' :: toHex4 c.toNat
  else
    let v := c.toNat - 65536
    ('\\' :: 'u' :: toHex4 (55296 + v / 1024)) ++
      ('\\' :: 'u' :: toHex4 (56320 + v % 1024))

/-- JSON encoding of a string body (no surrounding quotes). -/
def escList (s : List Char) : List Char :=
  (s.map escChar).flatten

/-- JSON encoding of a whole string, Python `json.dumps` style. -/
def encodeJsonString (s : String) : String :=
  "\"" ++ String.mk (escList s.data) ++ "\""

/-- `LanceDBCompiler.compile`: `json.dumps({"vector": research_question,
"filter": ""})` with the default separators, producing the two-key JSON
object literal. -/
def lancedbCompile (p : ProtocolDefinition) : String :=
  "\x7b\"vector\": " ++ encodeJsonString p.research_question ++
    ", \"filter\": \"\"\x7d"

/-- Code sanitization of `GraphCompiler.compile`: backslash-escape single
quotes inside a code. -/
def sanitizeGraphCode (c : String) : String :=
  replaceChar '\x27' ['\\', '\x27'] c

/-- `GraphCompiler.compile`: chain of MATCH clauses over the surviving
blocks in canonical order, filtering by the codes of active terms. -/
def graphCompile (p : ProtocolDefinition) : String :=
  let step := fun (acc : List String × Bool) (block_type : String) =>
    match dictLookup p.pico_structure block_type with
    | none => acc
    | some block =>
      let active_terms := block.terms.filter (fun t => t.is_active)
      if active_terms.isEmpty then acc
      else
        let codes := active_terms.map
          (fun t => "\x27" ++ sanitizeGraphCode t.code ++ "\x27")
        let codes_str := "[" ++ joinSep ", " codes ++ "]"
        if acc.2 then
          (acc.1 ++
            ["MATCH (p:Publication)-[:HAS_MESH]->(t:Term) WHERE t.code IN "
              ++ codes_str], false)
        else
          (acc.1 ++ ["WITH p",
            "MATCH (p)-[:HAS_MESH]->(t:Term) WHERE t.code IN " ++ codes_str],
            false)
  let parts := (["P", "I", "C", "O", "S"].foldl step ([], true)).1
  if parts.isEmpty then ""
  else joinSep " " (parts ++ ["RETURN p"])

/-- `StrategyCompiler.compile`: dispatch on the target registry; unknown
targets raise naming the target; the result carries the placeholder
validation status. -/
def strategyCompile (p : ProtocolDefinition) (target : String) :
    Except String ExecutableStrategy :=
  if target = Target.PUBMED then
    .ok ⟨target, pubmedCompile p, "PRESS_PASSED"⟩
  else if target = Target.LANCEDB then
    .ok ⟨target, lancedbCompile p, "PRESS_PASSED"⟩
  else if target = Target.GRAPH then
    .ok ⟨target, graphCompile p, "PRESS_PASSED"⟩
  else .error ("Unsupported target: " ++ target)

/-- The upsert loop of `ProtocolDefinition.compile`: replace the first
stored strategy whose target matches, else append. -/
def upsertStrategy (es : List ExecutableStrategy) (target : String)
    (s : ExecutableStrategy) : List ExecutableStrategy :=
  match es with
  | [] => [s]
  | e :: rest =>
    if e.target = target then s :: rest
    else e :: upsertStrategy rest target s

/-- The protocol after one `compile` call has its strategies upserted. -/
def compileStep (q : ProtocolDefinition) (target : String)
    (s : ExecutableStrategy) : ProtocolDefinition :=
  { q with execution_strategies := upsertStrategy q.execution_strategies target s }

/-- `ProtocolDefinition.compile` (types.py lines 312-339): compile for the
target, upsert into `execution_strategies`, and return the singleton list of
the fresh strategy together with the updated protocol. -/
def protocolCompile (p : ProtocolDefinition) (target : String) :
    Except String (ProtocolDefinition × List ExecutableStrategy) :=
  match strategyCompile p target with
  | .error e => .error e
  | .ok strategy =>
    let es2 := upsertStrategy p.execution_strategies target strategy
    .ok ({ p with execution_strategies := es2 }, [strategy])

/-- N-fold repetition of `protocolCompile` for a fixed target (a failing
call, impossible for a supported target, leaves the protocol unchanged). -/
def compileN (p : ProtocolDefinition) (target : String) : Nat →
    ProtocolDefinition
  | 0 => p
  | n + 1 =>
    match protocolCompile (compileN p target n) target with
    | .ok (q, _) => q
    | .error _ => compileN p target n

/-- Helper for the JSON string parser: prepend a decoded character to the
first component of a successful parse. -/
def consFst (c : Char) :
    Option (List Char × List Char) → Option (List Char × List Char)
  | some (s, rest) => some (c :: s, rest)
  | none => none

/-- Value of a single hexadecimal digit character. -/
def hexVal (c : Char) : Option Nat :=
  if 48 ≤ c.toNat ∧ c.toNat ≤ 57 then some (c.toNat - 48)
  else if 97 ≤ c.toNat ∧ c.toNat ≤ 102 then some (c.toNat - 87)
  else if 65 ≤ c.toNat ∧ c.toNat ≤ 70 then some (c.toNat - 55)
  else none

/-- Value of a four-digit hexadecimal escape. -/
def hex4Val (a b c d : Char) : Option Nat :=
  match hexVal a, hexVal b, hexVal c, hexVal d with
  | some x, some y, some z, some w => some (4096 * x + 256 * y + 16 * z + w)
  | _, _, _, _ => none

/-- Decoding of a `\uXXXX` escape (the `\u` already consumed), including
surrogate-pair combination.  `parse` is the continuation for the remaining
input. -/
def parseUEscape (parse : List Char → Option (List Char × List Char))
    (rest2 : List Char) : Option (List Char × List Char) :=
  match rest2 with
  | a :: b :: c2 :: d :: rest3 =>
    match hex4Val a b c2 d with
    | none => none
    | some n =>
      if n < 55296 ∨ 57344 ≤ n then consFst (Char.ofNat n) (parse rest3)
      else if n < 56320 then
        match rest3 with
        | s1 :: s2 :: a2 :: b2 :: c3 :: d3 :: rest4 =>
          if s1 = '\\' ∧ s2 = 'u' then
            match hex4Val a2 b2 c3 d3 with
            | none => none
            | some m =>
              if 56320 ≤ m ∧ m < 57344 then
                consFst (Char.ofNat (65536 + (n - 55296) * 1024 + (m - 56320)))
                  (parse rest4)
              else none
          else none
        | _ => none
      else none
  | _ => none

/-- Decoding of a backslash escape (the backslash already consumed). -/
def parseEsc (parse : List Char → Option (List Char × List Char))
    (rest : List Char) : Option (List Char × List Char) :=
  match rest with
  | [] => none
  | e :: rest2 =>
    if e = '"' then consFst '"' (parse rest2)
    else if e = '\\' then consFst '\\' (parse rest2)
    else if e = '/' then consFst '/' (parse rest2)
    else if e = 'b' then consFst ('\x08') (parse rest2)
    else if e = 'f' then consFst ('\x0c') (parse rest2)
    else if e = 'n' then consFst ('\x0a') (parse rest2)
    else if e = 'r' then consFst ('\x0d') (parse rest2)
    else if e = 't' then consFst ('\x09') (parse rest2)
    else if e = 'u' then parseUEscape parse rest2
    else none

/-- RFC 8259 JSON string-body parser (the opening quote already consumed),
fuelled: returns the decoded characters up to the closing quote and the
remaining input.  Escape sequences, `\uXXXX` escapes and surrogate pairs are
decoded; unescaped control characters and malformed escapes are rejected.
Every step consumes at least one input character, so fuel exceeding the
input length never runs out. -/
def parseBody : Nat → List Char → Option (List Char × List Char)
  | 0, _ => none
  | fuel + 1, l =>
    match l with
    | [] => none
    | c :: rest =>
      if c = '"' then some ([], rest)
      else if c = '\\' then parseEsc (parseBody fuel) rest
      else if c.toNat < 32 then none
      else consFst c (parseBody fuel rest)

/-- JSON string-body parser with sufficient fuel. -/
def parseJsonStringBody (l : List Char) : Option (List Char × List Char) :=
  parseBody (l.length + 1) l

/-- Skip JSON insignificant whitespace. -/
def skipWs : List Char → List Char
  | [] => []
  | c :: rest =>
    if c = ' ' ∨ c = '\x09' ∨ c = '\x0a' ∨ c = '\x0d'
    then skipWs rest
    else c :: rest

/-- Parse a complete JSON string literal (opening quote included). -/
def parseJsonStringLit (l : List Char) : Option (List Char × List Char) :=
  match l with
  | [] => none
  | c :: rest => if c = '"' then parseJsonStringBody rest else none

/-- Parse the members of a JSON object whose values are string literals,
starting right after the opening brace (object known non-empty), up to and
including the closing brace.  `fuel` bounds the number of members. -/
def parseMembers : Nat → List Char →
    Option (List (List Char × List Char) × List Char)
  | 0, _ => none
  | fuel + 1, l =>
    match parseJsonStringLit (skipWs l) with
    | none => none
    | some (key, r1) =>
      match skipWs r1 with
      | [] => none
      | c :: r2 =>
        if c = ':' then
          match parseJsonStringLit (skipWs r2) with
          | none => none
          | some (val, r3) =>
            match skipWs r3 with
            | [] => none
            | c2 :: r4 =>
              if c2 = ',' then
                match parseMembers fuel r4 with
                | none => none
                | some (members, r5) => some ((key, val) :: members, r5)
              else if c2 = '\x7d' then some ([(key, val)], r4)
              else none
        else none

/-- Parse a whole input as a single JSON object with string-literal values,
rejecting trailing garbage. -/
def parseJsonObject (l : List Char) : Option (List (List Char × List Char)) :=
  match skipWs l with
  | [] => none
  | c :: rest =>
    if c = '\x7b' then
      match skipWs rest with
      | [] => none
      | c2 :: rest2 =>
        if c2 = '\x7d' then
          if skipWs rest2 = [] then some [] else none
        else
          match parseMembers (l.length + 1) (c2 :: rest2) with
          | none => none
          | some (members, r) => if skipWs r = [] then some members else none
    else none

/-- String-level wrapper around `parseJsonObject`. -/
def parseJsonObjectStr (s : String) : Option (List (String × String)) :=
  match parseJsonObject s.data with
  | none => none
  | some members =>
    some (members.map (fun kv => (String.mk kv.1, String.mk kv.2)))

/-- Heap-model PICO block: `terms` holds references (heap indices) to the
term objects, mirroring Python's aliasing of mutable `OntologyTerm`
objects. -/
structure PicoBlockH where
  block_type : String
  description : String
  terms : List Nat
  logic_operator : String
deriving DecidableEq, Repr

/-- Heap-model protocol: identical to `ProtocolDefinition` except that
blocks hold term references. -/
structure ProtocolH where
  id : String
  title : String
  research_question : String
  pico_structure : List (String × PicoBlockH)
  execution_strategies : List ExecutableStrategy
  status : ProtocolStatus
  approval_history : Option ApprovalRecord
deriving DecidableEq, Repr

/-- Replace the heap-model protocol's pico structure. -/
def withPico (p : ProtocolH) (pico2 : List (String × PicoBlockH)) :
    ProtocolH :=
  { p with pico_structure := pico2 }

/-- Heap-model duplicate scan of `inject_term`: a dangling reference never
matches (it corresponds to no Python object). -/
def findDupBlockH (heap : List OntologyTerm)
    (blocks : List (String × PicoBlockH)) (tid : String) : Option String :=
  match blocks with
  | [] => none
  | (_, blk) :: rest =>
    if blk.terms.any (fun r =>
        match heap.get? r with
        | some t => t.id = tid
        | none => false) then some blk.block_type
    else findDupBlockH heap rest tid

/-- Heap-model `inject_term` (types.py lines 270-310): `r` is the reference
to the caller-supplied term object.  The result pairs the raised-or-returned
outcome with the post-state (heap, protocol), with mutations threaded
exactly where the source performs them: the same-block duplicate path
returns before the `origin` overwrite, the overwrite of the caller's object
happens before block creation, and on success the very reference `r` is
appended to the target block.  A dangling reference (no Python counterpart)
is reported as an error. -/
def injectTermH (heap : List OntologyTerm) (p : ProtocolH)
    (block_type : String) (r : Nat) :
    Except String Unit × (List OntologyTerm × ProtocolH) :=
  if p.status = .APPROVED then
    (.error "Cannot modify protocol in APPROVED state", (heap, p))
  else if p.status = .EXECUTED then
    (.error "Cannot modify protocol in EXECUTED state", (heap, p))
  else if p.status ≠ .DRAFT ∧ p.status ≠ .PENDING_REVIEW then
    (.error ("Cannot modify protocol in state: " ++ statusStr p.status),
      (heap, p))
  else
    match heap.get? r with
    | none => (.error "invalid term reference", (heap, p))
    | some term =>
      match findDupBlockH heap p.pico_structure term.id with
      | some bt =>
        if block_type = bt then (.ok (), (heap, p))
        else (.error ("Term ID \x27" ++ term.id ++
          "\x27 already exists in block \x27" ++ bt ++ "\x27"), (heap, p))
      | none =>
        let heap2 := heap.set r { term with origin := .HUMAN_INJECTION }
        let addTerm := fun (b : PicoBlockH) => { b with terms := b.terms ++ [r] }
        if dictContains p.pico_structure block_type then
          let pico2 := dictModify p.pico_structure block_type addTerm
          (.ok (), (heap2, { p with pico_structure := pico2 }))
        else
          match validateBlockType block_type with
          | .error e => (.error e, (heap2, p))
          | .ok _ =>
            let newBlock : PicoBlockH := ⟨block_type, block_type, [], "OR"⟩
            let pico2 := dictModify (p.pico_structure ++ [(block_type, newBlock)])
              block_type addTerm
            (.ok (), (heap2, { p with pico_structure := pico2 }))

/-- A fully valid MeSH term used by the concrete instances below. -/
def sampleTerm : OntologyTerm :=
  ⟨"term-1", "Heart Attack", "MeSH", "D009203", .USER_INPUT, true, none⟩

/-- A DRAFT protocol whose `pico_structure` has only block P — structurally
invalid for the Validator (required blocks I and O are missing), yet with a
well-formed block P. -/
def invalidDraftProtocol : ProtocolDefinition :=
  ⟨"proto-bad", "Test Protocol", "Question",
   [("P", ⟨"P", "Pop", [sampleTerm], "OR"⟩)], [], .DRAFT, none⟩

/-! Theorems. -/

theorem mk_data (s : String) : String.mk s.data = s := rfl

theorem hexVal_hexDigit (n : Nat) (h : n < 16) : hexVal (hexDigit n) = some n := by
  interval_cases n <;> rfl

theorem hex4Val_toHex4 (n : Nat) (h : n < 65536) :
    hex4Val (hexDigit (n / 4096 % 16)) (hexDigit (n / 256 % 16))
      (hexDigit (n / 16 % 16)) (hexDigit (n % 16)) = some n := by
  have e1 := hexVal_hexDigit (n / 4096 % 16) (by omega)
  have e2 := hexVal_hexDigit (n / 256 % 16) (by omega)
  have e3 := hexVal_hexDigit (n / 16 % 16) (by omega)
  have e4 := hexVal_hexDigit (n % 16) (by omega)
  simp [hex4Val, e1, e2, e3, e4]
  omega

theorem parse_esc_backslash (X : List Char) (f : Nat) :
    parseBody (f + 1) ('\\' :: '\\' :: X) = consFst '\\' (parseBody f X) := by
  simp [parseBody, parseEsc]

theorem parse_esc_quote (X : List Char) (f : Nat) :
    parseBody (f + 1) ('\\' :: '"' :: X) = consFst '"' (parseBody f X) := by
  simp [parseBody, parseEsc]

theorem parse_esc_b (X : List Char) (f : Nat) :
    parseBody (f + 1) ('\\' :: 'b' :: X) =
      consFst ('\x08') (parseBody f X) := by
  simp [parseBody, parseEsc]

theorem parse_esc_f (X : List Char) (f : Nat) :
    parseBody (f + 1) ('\\' :: 'f' :: X) =
      consFst ('\x0c') (parseBody f X) := by
  simp [parseBody, parseEsc]

theorem parse_esc_n (X : List Char) (f : Nat) :
    parseBody (f + 1) ('\\' :: 'n' :: X) =
      consFst ('\x0a') (parseBody f X) := by
  simp [parseBody, parseEsc]

theorem parse_esc_r (X : List Char) (f : Nat) :
    parseBody (f + 1) ('\\' :: 'r' :: X) =
      consFst ('\x0d') (parseBody f X) := by
  simp [parseBody, parseEsc]

theorem parse_esc_t (X : List Char) (f : Nat) :
    parseBody (f + 1) ('\\' :: 't' :: X) =
      consFst ('\x09') (parseBody f X) := by
  simp [parseBody, parseEsc]

theorem parse_esc_print (c : Char) (X : List Char) (f : Nat)
    (h1 : ¬ c = '\\') (h2 : ¬ c = '"') (h8 : 32 ≤ c.toNat ∧ c.toNat ≤ 126) :
    parseBody (f + 1) (c :: X) = consFst c (parseBody f X) := by
  obtain ⟨hlo, hhi⟩ := h8
  have hne32 : ¬ c.toNat < 32 := by omega
  simp [parseBody, h1, h2, hne32]

theorem parse_esc_bmp (c : Char) (X : List Char) (f : Nat)
    (h9 : c.toNat < 65536) :
    parseBody (f + 1) ('\\' :: 'u' :: toHex4 c.toNat ++ X) =
      consFst c (parseBody f X) := by
  have hval := c.valid
  have he : c.toNat = c.val.toNat := rfl
  have hd : toHex4 c.toNat =
      [hexDigit (c.toNat / 4096 % 16), hexDigit (c.toNat / 256 % 16),
       hexDigit (c.toNat / 16 % 16), hexDigit (c.toNat % 16)] := rfl
  have hhex := hex4Val_toHex4 c.toNat h9
  have hsur : c.toNat < 55296 ∨ 57344 ≤ c.toNat := by
    rcases hval with hv | ⟨hv1, hv2⟩
    · left; omega
    · right; omega
  rw [hd]
  simp [parseBody, parseEsc, parseUEscape, hhex, hsur, Char.ofNat_toNat]

theorem parse_esc_pair (a b c d a2 b2 c2 d2 : Char) (n m : Nat)
    (X : List Char) (f : Nat)
    (hn : hex4Val a b c d = some n) (hm : hex4Val a2 b2 c2 d2 = some m)
    (h1 : ¬ (n < 55296 ∨ 57344 ≤ n)) (h2 : n < 56320)
    (h3 : 56320 ≤ m ∧ m < 57344) :
    parseBody (f + 1)
      ('\\' :: 'u' :: a :: b :: c :: d :: '\\' :: 'u' :: a2 :: b2 :: c2 :: d2 :: X) =
      consFst (Char.ofNat (65536 + (n - 55296) * 1024 + (m - 56320)))
        (parseBody f X) := by
  simp [parseBody, parseEsc, parseUEscape, hn, hm, h1, h2, h3]

theorem parse_esc_astral (c : Char) (X : List Char) (f : Nat)
    (hge : 65536 ≤ c.toNat) :
    parseBody (f + 1)
      ('\\' :: 'u' :: toHex4 (55296 + (c.toNat - 65536) / 1024) ++
        ('\\' :: 'u' :: toHex4 (56320 + (c.toNat - 65536) % 1024)) ++ X) =
      consFst c (parseBody f X) := by
  have hval := c.valid
  have he : c.toNat = c.val.toNat := rfl
  have hlt : c.toNat < 1114112 := by
    rcases hval with hv | ⟨hv1, hv2⟩ <;> omega
  have hhi : toHex4 (55296 + (c.toNat - 65536) / 1024) =
      [hexDigit ((55296 + (c.toNat - 65536) / 1024) / 4096 % 16),
       hexDigit ((55296 + (c.toNat - 65536) / 1024) / 256 % 16),
       hexDigit ((55296 + (c.toNat - 65536) / 1024) / 16 % 16),
       hexDigit ((55296 + (c.toNat - 65536) / 1024) % 16)] := rfl
  have hlo : toHex4 (56320 + (c.toNat - 65536) % 1024) =
      [hexDigit ((56320 + (c.toNat - 65536) % 1024) / 4096 % 16),
       hexDigit ((56320 + (c.toNat - 65536) % 1024) / 256 % 16),
       hexDigit ((56320 + (c.toNat - 65536) % 1024) / 16 % 16),
       hexDigit ((56320 + (c.toNat - 65536) % 1024) % 16)] := rfl
  have hhex1 := hex4Val_toHex4 (55296 + (c.toNat - 65536) / 1024) (by omega)
  have hhex2 := hex4Val_toHex4 (56320 + (c.toNat - 65536) % 1024) (by omega)
  have hstep := parse_esc_pair _ _ _ _ _ _ _ _
    (55296 + (c.toNat - 65536) / 1024) (56320 + (c.toNat - 65536) % 1024)
    X f hhex1 hhex2 (by omega) (by omega) (by omega)
  have hchar : Char.ofNat (65536 + (55296 + (c.toNat - 65536) / 1024 - 55296) *
      1024 + (56320 + (c.toNat - 65536) % 1024 - 56320)) = c := by
    have harg : 65536 + (55296 + (c.toNat - 65536) / 1024 - 55296) * 1024 +
        (56320 + (c.toNat - 65536) % 1024 - 56320) = c.toNat := by omega
    rw [harg, Char.ofNat_toNat]
  rw [hhi, hlo]
  simp only [List.cons_append, List.append_assoc, List.nil_append]
  rw [hstep, hchar]

theorem parseBody_escChar (c : Char) (X : List Char) (f : Nat) :
    parseBody (f + 1) (escChar c ++ X) = consFst c (parseBody f X) := by
  unfold escChar
  split_ifs with h1 h2 h3 h4 h5 h6 h7 h8 h9
  · subst h1; exact parse_esc_backslash X f
  · subst h2; exact parse_esc_quote X f
  · subst h3; exact parse_esc_b X f
  · subst h4; exact parse_esc_f X f
  · subst h5; exact parse_esc_n X f
  · subst h6; exact parse_esc_r X f
  · subst h7; exact parse_esc_t X f
  · exact parse_esc_print c X f h1 h2 h8
  · exact parse_esc_bmp c X f h9
  · exact parse_esc_astral c X f (by omega)

theorem escChar_length_pos (c : Char) : 1 ≤ (escChar c).length := by
  unfold escChar
  split_ifs <;> simp [toHex4]

theorem length_le_escList (s : List Char) : s.length ≤ (escList s).length := by
  induction s with
  | nil => simp [escList]
  | cons c cs ih =>
    have h := escChar_length_pos c
    simp only [escList, List.map_cons, List.flatten_cons, List.length_append,
      List.length_cons]
    simp only [escList] at ih
    omega

theorem parseBody_escList (s : List Char) (f : Nat) (rest : List Char)
    (hf : s.length < f) :
    parseBody f (escList s ++ '"' :: rest) = some (s, rest) := by
  induction s generalizing f with
  | nil =>
    obtain ⟨f', rfl⟩ : ∃ f', f = f' + 1 := by
      cases f
      · omega
      · exact ⟨_, rfl⟩
    simp [escList, parseBody]
  | cons c cs ih =>
    obtain ⟨f', rfl⟩ : ∃ f', f = f' + 1 := by
      cases f
      · omega
      · exact ⟨_, rfl⟩
    have he : escList (c :: cs) ++ '"' :: rest =
        escChar c ++ (escList cs ++ '"' :: rest) := by
      simp [escList]
    rw [he, parseBody_escChar, ih f' (by simpa using hf)]
    rfl

theorem parseJsonStringBody_escList (s : List Char) (rest : List Char) :
    parseJsonStringBody (escList s ++ '"' :: rest) = some (s, rest) := by
  have hlen := length_le_escList s
  apply parseBody_escList
  simp only [List.length_append, List.length_cons]
  omega

theorem parseMembers_pair (k : Nat) (k1 v1 k2 v2 : List Char) :
    parseMembers (k + 2)
      ('"' :: (escList k1 ++ '"' :: (':' :: ' ' :: '"' ::
        (escList v1 ++ '"' :: (',' :: ' ' :: '"' ::
          (escList k2 ++ '"' :: (':' :: ' ' :: '"' ::
            (escList v2 ++ ['"', '\x7d'])))))))) =
      some ([(k1, v1), (k2, v2)], []) := by
  have h1 := parseJsonStringBody_escList k1
    (':' :: ' ' :: '"' :: (escList v1 ++ '"' :: (',' :: ' ' :: '"' ::
      (escList k2 ++ '"' :: (':' :: ' ' :: '"' ::
        (escList v2 ++ ['"', '\x7d']))))))
  have h2 := parseJsonStringBody_escList v1
    (',' :: ' ' :: '"' :: (escList k2 ++ '"' :: (':' :: ' ' :: '"' ::
      (escList v2 ++ ['"', '\x7d']))))
  have h3 := parseJsonStringBody_escList k2
    (':' :: ' ' :: '"' :: (escList v2 ++ ['"', '\x7d']))
  have h4 := parseJsonStringBody_escList v2 ['\x7d']
  simp [parseMembers, parseJsonStringLit, skipWs, h1, h2, h3, h4]

theorem lancedb_data (p : ProtocolDefinition) :
    (lancedbCompile p).data =
      '\x7b' :: '"' :: (escList ("vector".data) ++ '"' ::
        (':' :: ' ' :: '"' :: (escList p.research_question.data ++ '"' ::
          (',' :: ' ' :: '"' :: (escList ("filter".data) ++ '"' ::
            (':' :: ' ' :: '"' ::
              (escList ([] : List Char) ++ ['"', '\x7d']))))))) := by
  have hd : ∀ a b : String, (a ++ b).data = a.data ++ b.data := fun a b => rfl
  have hm : ∀ l : List Char, (String.mk l).data = l := fun l => rfl
  have hA : ("\x7b\"vector\": ").data =
      '\x7b' :: '"' :: escList ("vector".data) ++ ['"', ':', ' '] := by
    decide
  have hB : (", \"filter\": \"\"\x7d").data =
      ',' :: ' ' :: '"' :: escList ("filter".data) ++
        ['"', ':', ' ', '"', '"', '\x7d'] := by
    decide
  have hq : ("\"").data = ['"'] := rfl
  have h0 : escList ([] : List Char) = [] := rfl
  have hv : escList (['v', 'e', 'c', 't', 'o', 'r']) =
      ['v', 'e', 'c', 't', 'o', 'r'] := by decide
  have hf : escList (['f', 'i', 'l', 't', 'e', 'r']) =
      ['f', 'i', 'l', 't', 'e', 'r'] := by decide
  simp only [lancedbCompile, encodeJsonString, hd, hm, hA, hB, hq, h0]
  simp [hv, hf]

theorem parseJsonObject_two (l : List Char) (B : List Char)
    (ms : List (List Char × List Char))
    (h1 : skipWs l = '\x7b' :: ('"' :: B))
    (hm : parseMembers (l.length + 1) ('"' :: B) = some (ms, [])) :
    parseJsonObject l = some ms := by
  have h2 : skipWs ('"' :: B) = '"' :: B := by
    rw [skipWs, if_neg (by decide)]
  simp only [parseJsonObject, h1, h2, hm, reduceIte,
    (by decide : (('"' : Char) = '\x7d') = False),
    (by decide : (('"' : Char) = ' ' ∨ ('"' : Char) = '\x09' ∨
      ('"' : Char) = '\x0a' ∨ ('"' : Char) = '\x0d') = False),
    (show skipWs [] = [] from rfl), if_false]

theorem parseJsonObjectStr_lancedb (p : ProtocolDefinition) :
    parseJsonObjectStr (lancedbCompile p) =
      some [("vector", p.research_question), ("filter", "")] := by
  have hdata := lancedb_data p
  set B := escList ("vector".data) ++ '"' ::
    (':' :: ' ' :: '"' :: (escList p.research_question.data ++ '"' ::
      (',' :: ' ' :: '"' :: (escList ("filter".data) ++ '"' ::
        (':' :: ' ' :: '"' ::
          (escList ([] : List Char) ++ ['"', '\x7d'])))))) with hB
  have h1 : skipWs ((lancedbCompile p).data) = '\x7b' :: ('"' :: B) := by
    rw [hdata, skipWs, if_neg (by decide)]
  have hpm := parseMembers_pair (B.length + 1) ("vector".data)
    (p.research_question.data) ("filter".data) ([] : List Char)
  rw [← hB] at hpm
  have hlen : (lancedbCompile p).data.length + 1 = B.length + 1 + 2 := by
    rw [hdata]
    simp only [List.length_cons]
  have hm : parseMembers ((lancedbCompile p).data.length + 1) ('"' :: B) =
      some ([("vector".data, p.research_question.data),
             ("filter".data, [])], []) := by
    rw [hlen]
    exact hpm
  have hobj := parseJsonObject_two ((lancedbCompile p).data) B _ h1 hm
  unfold parseJsonObjectStr
  rw [hobj]
  simp [mk_data]

/-- C8: for every protocol and every research_question string (arbitrary
Unicode, embedded quotes, JSON fragments), the LANCEDB compiler's output
decodes as a JSON object with exactly the two keys `vector` and `filter`,
`filter` is the empty string, `vector` round-trips to `research_question`
character for character, and `pico_structure` (indeed everything except
`research_question`) is ignored entirely. -/
theorem C8_lancedb_json (p : ProtocolDefinition) :
    parseJsonObjectStr (lancedbCompile p) =
      some [("vector", p.research_question), ("filter", "")] ∧
    (∀ q : ProtocolDefinition,
      q.research_question = p.research_question →
      lancedbCompile q = lancedbCompile p) := by
  refine ⟨parseJsonObjectStr_lancedb p, ?_⟩
  intro q hq
  simp [lancedbCompile, hq]

/-- C8 witness: the claim's adversarial injection input decodes to exactly
the two expected keys, and a protocol with a populated `pico_structure`
compiles to the same output as one with an empty `pico_structure`. -/
theorem C8_lancedb_json_witness :
    parseJsonObjectStr (lancedbCompile
        ⟨"p1", "T", "Start \", \"filter\": \"hacked\", \"ignore\": \"",
         [], [], .DRAFT, none⟩) =
      some [("vector", "Start \", \"filter\": \"hacked\", \"ignore\": \""),
            ("filter", "")] ∧
    lancedbCompile
        ⟨"p1", "T", "Start \", \"filter\": \"hacked\", \"ignore\": \"",
         [("P", ⟨"P", "Pop", [sampleTerm], "OR"⟩)], [], .DRAFT, none⟩ =
      lancedbCompile
        ⟨"p1", "T", "Start \", \"filter\": \"hacked\", \"ignore\": \"",
         [], [], .DRAFT, none⟩ := by
  constructor
  · exact (C8_lancedb_json
      ⟨"p1", "T", "Start \", \"filter\": \"hacked\", \"ignore\": \"",
       [], [], .DRAFT, none⟩).1
  · exact (C8_lancedb_json
      ⟨"p1", "T", "Start \", \"filter\": \"hacked\", \"ignore\": \"",
       [], [], .DRAFT, none⟩).2
      ⟨"p1", "T", "Start \", \"filter\": \"hacked\", \"ignore\": \"",
       [("P", ⟨"P", "Pop", [sampleTerm], "OR"⟩)], [], .DRAFT, none⟩ rfl

theorem validatePicoStructure_ok_iff (v : List (String × PicoBlock)) :
    validatePicoStructure v = .ok () ↔
      ∀ kb ∈ v, kb.1 = kb.2.block_type := by
  induction v with
  | nil => simp [validatePicoStructure]
  | cons kb rest ih =>
    obtain ⟨k, b⟩ := kb
    by_cases h : k = b.block_type
    · simp [validatePicoStructure, h, ih]
    · simp [validatePicoStructure, h]

/-- C3: every key of `pico_structure` equals the mapped block's own
`block_type`; any construction of a `ProtocolDefinition`, or assignment to
its `pico_structure` field, where some key differs from that block's
`block_type` fails validation. -/
theorem C3_pico_key_invariant (id title rq : String)
    (pico : List (String × PicoBlock)) (es : List ExecutableStrategy)
    (st : ProtocolStatus) (ah : Option ApprovalRecord)
    (p0 : ProtocolDefinition) :
    (∀ p, mkProtocolDefinition id title rq pico es st ah = .ok p →
      ∀ kb ∈ p.pico_structure, kb.1 = kb.2.block_type) ∧
    (∀ p, setPicoStructure p0 pico = .ok p →
      ∀ kb ∈ p.pico_structure, kb.1 = kb.2.block_type) ∧
    ((∃ kb ∈ pico, kb.1 ≠ kb.2.block_type) →
      (∃ e, mkProtocolDefinition id title rq pico es st ah = .error e) ∧
      (∃ e, setPicoStructure p0 pico = .error e)) := by
  refine ⟨?_, ?_, ?_⟩
  · intro p hp kb hkb
    unfold mkProtocolDefinition at hp
    rcases hv : validatePicoStructure pico with e | u
    · rw [hv] at hp
      exact absurd hp (by simp)
    · rw [hv] at hp
      obtain rfl : pico = p.pico_structure := by
        cases hp
        rfl
      exact (validatePicoStructure_ok_iff _).mp hv kb hkb
  · intro p hp kb hkb
    unfold setPicoStructure at hp
    rcases hv : validatePicoStructure pico with e | u
    · rw [hv] at hp
      exact absurd hp (by simp)
    · rw [hv] at hp
      obtain rfl : pico = p.pico_structure := by
        cases hp
        rfl
      exact (validatePicoStructure_ok_iff _).mp hv kb hkb
  · intro hbad
    have hnot : ¬ validatePicoStructure pico = .ok () := by
      rw [validatePicoStructure_ok_iff]
      obtain ⟨kb, hkb, hne⟩ := hbad
      intro hall
      exact hne (hall kb hkb)
    rcases hv : validatePicoStructure pico with e | u
    · constructor
      · exact ⟨e, by unfold mkProtocolDefinition; rw [hv]⟩
      · exact ⟨e, by unfold setPicoStructure; rw [hv]⟩
    · exact absurd (by rw [hv]) hnot

/-- C3 witness: a concrete mismatched structure (key "P" mapped to a block
whose block_type is "I") is rejected both at construction and at
assignment, and a concrete well-keyed construction satisfies the
invariant. -/
theorem C3_pico_key_invariant_witness :
    ((∃ e, mkProtocolDefinition "p" "t" "q"
        [("P", ⟨"I", "d", [], "OR"⟩)] [] .DRAFT none = .error e) ∧
     (∃ e, setPicoStructure ⟨"p", "t", "q", [], [], .DRAFT, none⟩
        [("P", ⟨"I", "d", [], "OR"⟩)] = .error e)) ∧
    (∀ p, mkProtocolDefinition "p" "t" "q"
        [("P", ⟨"P", "d", [], "OR"⟩)] [] .DRAFT none = .ok p →
      ∀ kb ∈ p.pico_structure, kb.1 = kb.2.block_type) := by
  constructor
  · exact (C3_pico_key_invariant "p" "t" "q" [("P", ⟨"I", "d", [], "OR"⟩)]
      [] .DRAFT none ⟨"p", "t", "q", [], [], .DRAFT, none⟩).2.2
      ⟨("P", ⟨"I", "d", [], "OR"⟩), by simp, by decide⟩
  · exact (C3_pico_key_invariant "p" "t" "q" [("P", ⟨"P", "d", [], "OR"⟩)]
      [] .DRAFT none ⟨"p", "t", "q", [], [], .DRAFT, none⟩).1

/-- C5 counterexample: the types.py `OntologyTerm` (the model exported by
the package and used by the protocol state machine and compiler) accepts
construction with empty `id`, whitespace-only `vocab_source` and empty
`code` — only `label` is validated — so the claim as stated is false for
it. -/
theorem C5_counterexample :
    mkOntologyTerm "" "Valid Label" " " "" .USER_INPUT true none =
      .ok ⟨"", "Valid Label", " ", "", .USER_INPUT, true, none⟩ := by
  rfl

/-- C5 amended: the schema.py `OntologyTerm` accepts construction exactly
when all four of `id`, `label`, `vocab_source`, `code` are non-empty after
trimming; the types.py `OntologyTerm` validates only `label` — construction
succeeds there exactly when `label` is non-blank, regardless of the other
three fields. -/
theorem C5_amended_term_validation (id label vs code : String)
    (o : TermOrigin) (a : Bool) (r : Option String) :
    ((∃ t, SchemaModel.mkOntologyTerm id label vs code o a r = .ok t) ↔
      (isBlank id = false ∧ isBlank label = false ∧
       isBlank vs = false ∧ isBlank code = false)) ∧
    ((∃ t, mkOntologyTerm id label vs code o a r = .ok t) ↔
      isBlank label = false) := by
  constructor
  · unfold SchemaModel.mkOntologyTerm
    split_ifs with h1 h2 h3 h4 <;> simp_all
  · unfold mkOntologyTerm
    split_ifs with h <;> simp_all

/-- C5 witness: with empty `id` and `code` and blank `vocab_source`, the
types.py model accepts the term while the schema.py model rejects it. -/
theorem C5_amended_term_validation_witness :
    (∃ t, mkOntologyTerm "" "Valid Label" " " "" .USER_INPUT true none =
      .ok t) ∧
    ¬ (∃ t, SchemaModel.mkOntologyTerm "" "Valid Label" " " ""
        .USER_INPUT true none = .ok t) := by
  constructor
  · exact (C5_amended_term_validation "" "Valid Label" " " ""
      .USER_INPUT true none).2.mpr (by decide)
  · intro h
    have := (C5_amended_term_validation "" "Valid Label" " " ""
      .USER_INPUT true none).1.mp h
    exact absurd this.1 (by decide)

/-- C1: code-bug evidence.  The spec (and the repository's own
test_lock.py::test_lock_fails_validation) require `lock` to run the full
structural Validator before calling the registrar, but the `lock` in
types.py only guards on status and on an empty `pico_structure`.  For the
DRAFT protocol with only block P (missing required blocks I and O): the
Validator rejects it with "Missing required block: 'I'", yet `lock` still
invokes the registrar (an always-raising registrar's error surfaces), and
with a registrar returning a hash the lock completes and the structurally
invalid protocol ends up APPROVED. -/
theorem C1_lock_skips_validator :
    ProtocolValidator.validate invalidDraftProtocol =
      .error "Missing required block: \x27I\x27" ∧
    (invalidDraftProtocol.lock "user-1"
      (fun _ => .error "registrar-reached") 0).1 =
      .error "registrar-reached" ∧
    ∃ q, (invalidDraftProtocol.lock "user-1"
        (fun _ => .ok "hash-123") 0).1 = .ok q ∧
      q.status = .APPROVED := by
  refine ⟨rfl, rfl, ⟨_, rfl, rfl⟩⟩

/-- C2: `lock` is atomic to an observer.  For a protocol in DRAFT with no
approval history: every failing lock attempt (empty `pico_structure` guard,
registrar error, blank returned hash) leaves the post-state with status
DRAFT and `approval_history` none; a successful lock yields status APPROVED
with a populated `ApprovalRecord` whose `approver_id` is the actor and
whose `veritas_hash` is non-blank, and the returned protocol is exactly the
post-state, so an observer seeing APPROVED is guaranteed a populated
approval record. -/
theorem C2_lock_atomic (p : ProtocolDefinition) (u : String)
    (register : ProtocolDefinition → Except String String) (now : Nat)
    (hst : p.status = .DRAFT) (hah : p.approval_history = none) :
    (∀ e, (p.lock u register now).1 = .error e →
      (p.lock u register now).2.status = .DRAFT ∧
      (p.lock u register now).2.approval_history = none) ∧
    (∀ q, (p.lock u register now).1 = .ok q →
      (p.lock u register now).2 = q ∧ q.status = .APPROVED ∧
      ∃ r, q.approval_history = some r ∧ r.approver_id = u ∧
        isBlank r.veritas_hash = false) := by
  have h1 : ¬ (p.status = .APPROVED ∨ p.status = .EXECUTED) := by
    rw [hst]
    simp
  have h3 : ¬ p.status ≠ .DRAFT := by
    rw [hst]
    simp
  by_cases hpico : p.pico_structure = []
  · have hl : p.lock u register now =
        (.error "Cannot lock a protocol with an empty PICO structure", p) := by
      unfold ProtocolDefinition.lock
      rw [if_neg h1, if_pos hpico]
    rw [hl]
    constructor
    · intro e _
      exact ⟨hst, hah⟩
    · intro q hq
      simp at hq
  · rcases hreg : register p with e | hsh
    · have hl : p.lock u register now = (.error e, p) := by
        unfold ProtocolDefinition.lock
        rw [if_neg h1, if_neg hpico, if_neg h3, hreg]
      rw [hl]
      constructor
      · intro e2 _
        exact ⟨hst, hah⟩
      · intro q hq
        simp at hq
    · by_cases hbl : isBlank hsh = true
      · have hl : p.lock u register now =
            (.error "veritas_hash cannot be empty", p) := by
          unfold ProtocolDefinition.lock mkApprovalRecord
          rw [if_neg h1, if_neg hpico, if_neg h3, hreg]
          simp only [hbl, reduceIte]
        rw [hl]
        constructor
        · intro e2 _
          exact ⟨hst, hah⟩
        · intro q hq
          simp at hq
      · have hbl2 : isBlank hsh = false := by
          simpa using hbl
        have hl : p.lock u register now =
            (.ok (lockSuccess p u now hsh), lockSuccess p u now hsh) := by
          unfold ProtocolDefinition.lock mkApprovalRecord lockSuccess
          rw [if_neg h1, if_neg hpico, if_neg h3, hreg]
          simp only [hbl2, reduceIte, Bool.false_eq_true, if_false]
        rw [hl]
        constructor
        · intro e2 he
          simp at he
        · intro q hq
          have hq2 : lockSuccess p u now hsh = q := by
            simpa using hq
          refine ⟨hq2, ?_, ?_⟩
          · rw [← hq2]
            rfl
          · rw [← hq2]
            exact ⟨⟨u, now, hsh⟩, rfl, rfl, hbl2⟩

/-- C2 witness: with a registrar returning "hash-123", locking a concrete
valid DRAFT protocol succeeds with the stated postconditions; with an
always-failing registrar the post-state is unchanged DRAFT. -/
theorem C2_lock_atomic_witness :
    ((invalidDraftProtocol.lock "user-1"
        (fun _ => .error "network down") 0).2.status = .DRAFT ∧
      (invalidDraftProtocol.lock "user-1"
        (fun _ => .error "network down") 0).2.approval_history = none) ∧
    ∃ q, (invalidDraftProtocol.lock "user-1"
        (fun _ => .ok "hash-123") 0).2 = q ∧ q.status = .APPROVED := by
  constructor
  · exact (C2_lock_atomic invalidDraftProtocol "user-1"
      (fun _ => .error "network down") 0 rfl rfl).1 "network down" rfl
  · obtain ⟨q, hq⟩ : ∃ q, (invalidDraftProtocol.lock "user-1"
        (fun _ => .ok "hash-123") 0).1 = .ok q := ⟨_, rfl⟩
    obtain ⟨h2, h3, _⟩ := (C2_lock_atomic invalidDraftProtocol "user-1"
      (fun _ => .ok "hash-123") 0 rfl rfl).2 q hq
    exact ⟨q, h2, h3⟩

theorem findDupBlock_of_filter (blocks : List (String × PicoBlock))
    (tid : String) (b : PicoBlock)
    (h : (blocks.map Prod.snd).filter
      (fun blk => blk.terms.any (fun t => t.id = tid)) = [b]) :
    findDupBlock blocks tid = some b.block_type := by
  induction blocks with
  | nil => simp at h
  | cons kb rest ih =>
    obtain ⟨k, blk⟩ := kb
    by_cases hb : blk.terms.any (fun t => t.id = tid)
    · rw [List.map_cons, List.filter_cons_of_pos (by simpa using hb)] at h
      have hbb : blk = b := by
        simpa using congrArg (fun l => l.head?) h
      rw [findDupBlock, if_pos hb, hbb]
    · rw [List.map_cons, List.filter_cons_of_neg (by simpa using hb)] at h
      rw [findDupBlock, if_neg hb]
      exact ih h

/-- C4: on a protocol in DRAFT or PENDING_REVIEW satisfying the global
id-uniqueness invariant (the injected id occurs in exactly one block `b`,
whether its occurrence there is active or not): if `b` is the target block
the call is a silent no-op returning the protocol unchanged (so the
existing term's label, code and origin are untouched); if `b` is a
different block the call fails with the error naming the id and `b`'s
block_type, leaving the protocol unchanged. -/
theorem C4_inject_term_duplicate (p : ProtocolDefinition)
    (target_block : String) (term : OntologyTerm) (b : PicoBlock)
    (hst : p.status = .DRAFT ∨ p.status = .PENDING_REVIEW)
    (huniq : (p.pico_structure.map Prod.snd).filter
      (fun blk => blk.terms.any (fun t => t.id = term.id)) = [b]) :
    (b.block_type = target_block →
      p.inject_term target_block term = .ok p) ∧
    (b.block_type ≠ target_block →
      p.inject_term target_block term =
        .error ("Term ID \x27" ++ term.id ++
          "\x27 already exists in block \x27" ++ b.block_type ++ "\x27")) := by
  have hdup := findDupBlock_of_filter p.pico_structure term.id b huniq
  have hA : ¬ p.status = .APPROVED := by
    rcases hst with h | h <;> simp [h]
  have hE : ¬ p.status = .EXECUTED := by
    rcases hst with h | h <;> simp [h]
  have hDP : ¬ (p.status ≠ .DRAFT ∧ p.status ≠ .PENDING_REVIEW) := by
    rcases hst with h | h <;> simp [h]
  constructor
  · intro hbt
    unfold ProtocolDefinition.inject_term
    rw [if_neg hA, if_neg hE, if_neg hDP, hdup]
    simp [hbt]
  · intro hbt
    unfold ProtocolDefinition.inject_term
    rw [if_neg hA, if_neg hE, if_neg hDP, hdup]
    simp only [reduceIte, if_neg (fun hh => hbt (Eq.symm hh))]

/-- C4 witness: in a concrete DRAFT protocol whose block P holds an
inactive term with id "t1" and whose block I holds id "t2", injecting a
fresh term object with id "t1" into P is a silent no-op, while injecting it
into I fails naming "t1" and block P, although the existing occurrence is
inactive. -/
theorem C4_inject_term_duplicate_witness :
    (ProtocolDefinition.inject_term
      ⟨"pw", "T", "Q",
       [("P", ⟨"P", "Pop",
          [⟨"t1", "Old Label", "MeSH", "C1", .USER_INPUT, false,
            some "removed"⟩], "OR"⟩),
        ("I", ⟨"I", "Int",
          [⟨"t2", "Aspirin", "MeSH", "C2", .USER_INPUT, true, none⟩],
          "OR"⟩)], [], .DRAFT, none⟩
      "P" ⟨"t1", "New Label", "SNOMED", "C9", .USER_INPUT, true, none⟩ =
      .ok ⟨"pw", "T", "Q",
       [("P", ⟨"P", "Pop",
          [⟨"t1", "Old Label", "MeSH", "C1", .USER_INPUT, false,
            some "removed"⟩], "OR"⟩),
        ("I", ⟨"I", "Int",
          [⟨"t2", "Aspirin", "MeSH", "C2", .USER_INPUT, true, none⟩],
          "OR"⟩)], [], .DRAFT, none⟩) ∧
    ProtocolDefinition.inject_term
      ⟨"pw", "T", "Q",
       [("P", ⟨"P", "Pop",
          [⟨"t1", "Old Label", "MeSH", "C1", .USER_INPUT, false,
            some "removed"⟩], "OR"⟩),
        ("I", ⟨"I", "Int",
          [⟨"t2", "Aspirin", "MeSH", "C2", .USER_INPUT, true, none⟩],
          "OR"⟩)], [], .DRAFT, none⟩
      "I" ⟨"t1", "New Label", "SNOMED", "C9", .USER_INPUT, true, none⟩ =
      .error "Term ID \x27t1\x27 already exists in block \x27P\x27" := by
  constructor
  · exact (C4_inject_term_duplicate _ "P"
      ⟨"t1", "New Label", "SNOMED", "C9", .USER_INPUT, true, none⟩
      ⟨"P", "Pop", [⟨"t1", "Old Label", "MeSH", "C1", .USER_INPUT, false,
        some "removed"⟩], "OR"⟩
      (Or.inl rfl) (by decide)).1 rfl
  · exact (C4_inject_term_duplicate _ "I"
      ⟨"t1", "New Label", "SNOMED", "C9", .USER_INPUT, true, none⟩
      ⟨"P", "Pop", [⟨"t1", "Old Label", "MeSH", "C1", .USER_INPUT, false,
        some "removed"⟩], "OR"⟩
      (Or.inl rfl) (by decide)).2 (by decide)

/-- C6: for every protocol whose block P's active terms are exactly
"Heart Attack" (MeSH) and "Myocardial Infarction" (any non-MeSH source)
with logic_operator OR, whose block I's single active term is "Aspirin"
(MeSH), and which has no C, O or S blocks, compiling for the PUBMED target
yields exactly the claimed query string. -/
theorem C6_pubmed_example (p : ProtocolDefinition) (bP bI : PicoBlock)
    (t1 t2 tI : OntologyTerm)
    (hP : dictLookup p.pico_structure "P" = some bP)
    (hI : dictLookup p.pico_structure "I" = some bI)
    (hC : dictLookup p.pico_structure "C" = none)
    (hO : dictLookup p.pico_structure "O" = none)
    (hS : dictLookup p.pico_structure "S" = none)
    (hPt : bP.terms.filter (fun t => t.is_active) = [t1, t2])
    (hop : bP.logic_operator = "OR")
    (h1l : t1.label = "Heart Attack") (h1v : t1.vocab_source = "MeSH")
    (h2l : t2.label = "Myocardial Infarction")
    (h2v : t2.vocab_source ≠ "MeSH")
    (hIt : bI.terms.filter (fun t => t.is_active) = [tI])
    (hil : tI.label = "Aspirin") (hiv : tI.vocab_source = "MeSH") :
    strategyCompile p Target.PUBMED =
      .ok ⟨Target.PUBMED,
        "((\"Heart Attack\"[Mesh] OR \"Myocardial Infarction\"[TiAb]) AND \"Aspirin\"[Mesh])",
        "PRESS_PASSED"⟩ := by
  have hf1 : formatPubmedTerm t1 = "\"Heart Attack\"[Mesh]" := by
    unfold formatPubmedTerm sanitizeLabel
    rw [h1l, h1v]
    rfl
  have hf2 : formatPubmedTerm t2 = "\"Myocardial Infarction\"[TiAb]" := by
    unfold formatPubmedTerm sanitizeLabel
    rw [h2l, if_neg (show ¬ t2.vocab_source = VocabSource.MESH from h2v)]
    rfl
  have hf3 : formatPubmedTerm tI = "\"Aspirin\"[Mesh]" := by
    unfold formatPubmedTerm sanitizeLabel
    rw [hil, hiv]
    rfl
  have hbe : pubmedBlockExprs p =
      [.bor (BList.ofList [.sym "\"Heart Attack\"[Mesh]",
        .sym "\"Myocardial Infarction\"[TiAb]"]),
       .sym "\"Aspirin\"[Mesh]"] := by
    have hPne : ¬ ∀ a ∈ bP.terms, a.is_active = false := by
      intro hall
      have hnil : List.filter (fun t => t.is_active) bP.terms = [] :=
        List.filter_eq_nil_iff.mpr (by simpa using hall)
      rw [hPt] at hnil
      simp at hnil
    have hIne : ¬ ∀ a ∈ bI.terms, a.is_active = false := by
      intro hall
      have hnil : List.filter (fun t => t.is_active) bI.terms = [] :=
        List.filter_eq_nil_iff.mpr (by simpa using hall)
      rw [hIt] at hnil
      simp at hnil
    unfold pubmedBlockExprs pubmedBlockEntry
    simp [List.filterMap_cons, hP, hI, hC, hO, hS, hPt, hIt, hf1, hf2, hf3,
      pubmedBlockExpr, hop, hPne, hIne]
  have hpc : pubmedCompile p =
      "((\"Heart Attack\"[Mesh] OR \"Myocardial Infarction\"[TiAb]) AND \"Aspirin\"[Mesh])" := by
    unfold pubmedCompile
    rw [hbe]
    rfl
  unfold strategyCompile
  rw [if_pos rfl, hpc]

/-- C7: for a protocol whose only surviving block (the only block, of any
valid type, contributing an active term; other blocks may exist but have no
active terms) has logic_operator NOT and exactly two active MeSH terms
whose labels survive sanitization unchanged, the PUBMED compiler renders a
conjunction of individually negated terms (not a negated disjunction). -/
theorem C7_pubmed_not_block (p : ProtocolDefinition) (bt : String)
    (b : PicoBlock) (tA tB : OntologyTerm) (la lb : String)
    (hbt : bt = "P" ∨ bt = "I" ∨ bt = "C" ∨ bt = "O" ∨ bt = "S")
    (hb : dictLookup p.pico_structure bt = some b)
    (hother : ∀ bt2, bt2 ≠ bt → ∀ b2,
      dictLookup p.pico_structure bt2 = some b2 →
      b2.terms.filter (fun t => t.is_active) = [])
    (hterms : b.terms.filter (fun t => t.is_active) = [tA, tB])
    (hop : b.logic_operator = "NOT")
    (hAl : tA.label = la) (hAv : tA.vocab_source = "MeSH")
    (hBl : tB.label = lb) (hBv : tB.vocab_source = "MeSH")
    (hsa : sanitizeLabel la = la) (hsb : sanitizeLabel lb = lb) :
    strategyCompile p Target.PUBMED =
      .ok ⟨Target.PUBMED,
        "((NOT \"" ++ la ++ "\"[Mesh]) AND (NOT \"" ++ lb ++ "\"[Mesh]))",
        "PRESS_PASSED"⟩ := by
  have hfA : formatPubmedTerm tA = "\"" ++ la ++ "\"[Mesh]" := by
    unfold formatPubmedTerm
    rw [hAl, hAv, hsa]
    rfl
  have hfB : formatPubmedTerm tB = "\"" ++ lb ++ "\"[Mesh]" := by
    unfold formatPubmedTerm
    rw [hBl, hBv, hsb]
    rfl
  have hbne : ¬ (b.terms.filter (fun t => t.is_active)).isEmpty = true := by
    rw [hterms]
    simp
  have hone : pubmedBlockEntry p bt =
      some (.band (BList.ofList [.bnot (.sym ("\"" ++ la ++ "\"[Mesh]")),
        .bnot (.sym ("\"" ++ lb ++ "\"[Mesh]"))])) := by
    unfold pubmedBlockEntry
    rw [hb]
    simp only [hterms, hfA, hfB, pubmedBlockExpr, hop, List.map_cons,
      List.map_nil]
    simp [pubmedBlockExpr, hop]
  have hnone : ∀ bt2, bt2 ≠ bt → pubmedBlockEntry p bt2 = none := by
    intro bt2 hne
    unfold pubmedBlockEntry
    rcases hl : dictLookup p.pico_structure bt2 with _ | b2
    · rfl
    · simp [hother bt2 hne b2 hl]
  have hbe : pubmedBlockExprs p =
      [.band (BList.ofList [.bnot (.sym ("\"" ++ la ++ "\"[Mesh]")),
        .bnot (.sym ("\"" ++ lb ++ "\"[Mesh]"))])] := by
    unfold pubmedBlockExprs
    rcases hbt with rfl | rfl | rfl | rfl | rfl
    · simp [List.filterMap_cons, hone, hnone "I" (by decide),
        hnone "C" (by decide), hnone "O" (by decide), hnone "S" (by decide)]
    · simp [List.filterMap_cons, hone, hnone "P" (by decide),
        hnone "C" (by decide), hnone "O" (by decide), hnone "S" (by decide)]
    · simp [List.filterMap_cons, hone, hnone "P" (by decide),
        hnone "I" (by decide), hnone "O" (by decide), hnone "S" (by decide)]
    · simp [List.filterMap_cons, hone, hnone "P" (by decide),
        hnone "I" (by decide), hnone "C" (by decide), hnone "S" (by decide)]
    · simp [List.filterMap_cons, hone, hnone "P" (by decide),
        hnone "I" (by decide), hnone "C" (by decide), hnone "O" (by decide)]
  have hpc : pubmedCompile p =
      "((NOT \"" ++ la ++ "\"[Mesh]) AND (NOT \"" ++ lb ++ "\"[Mesh]))" := by
    unfold pubmedCompile
    rw [hbe]
    show renderPubmedAst _ = _
    simp only [renderPubmedAst, renderBList, BList.ofList, joinSep]
    rw [String.ext_iff]
    simp [String.data_append]
  unfold strategyCompile
  rw [if_pos rfl, hpc]

/-- C6 witness: the claim's example protocol compiles to exactly the
claimed string. -/
theorem C6_pubmed_example_witness :
    strategyCompile
      ⟨"proto-1", "T", "Q?",
       [("P", ⟨"P", "Patient",
          [⟨"p1", "Heart Attack", "MeSH", "D009203", .USER_INPUT, true,
            none⟩,
           ⟨"p2", "Myocardial Infarction", "ICD-10", "I21",
            .SYSTEM_EXPANSION, true, none⟩], "OR"⟩),
        ("I", ⟨"I", "Intervention",
          [⟨"i1", "Aspirin", "MeSH", "D001241", .USER_INPUT, true, none⟩],
          "OR"⟩)], [], .DRAFT, none⟩ Target.PUBMED =
      .ok ⟨Target.PUBMED,
        "((\"Heart Attack\"[Mesh] OR \"Myocardial Infarction\"[TiAb]) AND \"Aspirin\"[Mesh])",
        "PRESS_PASSED"⟩ := by
  exact C6_pubmed_example _ _ _
    ⟨"p1", "Heart Attack", "MeSH", "D009203", .USER_INPUT, true, none⟩
    ⟨"p2", "Myocardial Infarction", "ICD-10", "I21", .SYSTEM_EXPANSION,
      true, none⟩
    ⟨"i1", "Aspirin", "MeSH", "D001241", .USER_INPUT, true, none⟩
    rfl rfl rfl rfl rfl (by decide) rfl rfl rfl rfl (by decide) (by decide)
    rfl rfl

/-- C7 witness: a single NOT block with MeSH terms labelled A and B yields
exactly the claimed conjunction of negations. -/
theorem C7_pubmed_not_block_witness :
    strategyCompile
      ⟨"1", "T", "Q",
       [("P", ⟨"P", "Pop",
          [⟨"p1", "A", "MeSH", "1", .USER_INPUT, true, none⟩,
           ⟨"p2", "B", "MeSH", "2", .USER_INPUT, true, none⟩], "NOT"⟩)],
       [], .DRAFT, none⟩ Target.PUBMED =
      .ok ⟨Target.PUBMED, "((NOT \"A\"[Mesh]) AND (NOT \"B\"[Mesh]))",
        "PRESS_PASSED"⟩ := by
  refine C7_pubmed_not_block _ "P"
    ⟨"P", "Pop", [⟨"p1", "A", "MeSH", "1", .USER_INPUT, true, none⟩,
      ⟨"p2", "B", "MeSH", "2", .USER_INPUT, true, none⟩], "NOT"⟩
    ⟨"p1", "A", "MeSH", "1", .USER_INPUT, true, none⟩
    ⟨"p2", "B", "MeSH", "2", .USER_INPUT, true, none⟩
    "A" "B" (Or.inl rfl) rfl ?_ (by decide) rfl rfl rfl rfl rfl
    (by decide) (by decide)
  intro bt2 hne b2 hl
  unfold dictLookup at hl
  by_cases hq : "P" = bt2
  · exact absurd hq.symm hne
  · rw [if_neg hq] at hl
    simp [dictLookup] at hl

theorem filter_upsert_pos (es : List ExecutableStrategy) (t : String)
    (s : ExecutableStrategy) (hs : s.target = t)
    (hcount : (es.filter (fun e => e.target = t)).length ≤ 1) :
    (upsertStrategy es t s).filter (fun e => e.target = t) = [s] := by
  induction es with
  | nil => simp [upsertStrategy, hs]
  | cons e rest ih =>
    by_cases he : e.target = t
    · rw [upsertStrategy, if_pos he, List.filter_cons_of_pos (by simp [hs]),
        List.filter_eq_nil_iff.mpr]
      intro x hx
      rw [List.filter_cons_of_pos (by simp [he])] at hcount
      simp only [List.length_cons] at hcount
      have hz : (rest.filter (fun e => e.target = t)).length = 0 := by omega
      intro hxt
      have hmem : x ∈ rest.filter (fun e => e.target = t) :=
        List.mem_filter.mpr ⟨hx, hxt⟩
      rw [List.length_eq_zero.mp hz] at hmem
      simp at hmem
    · rw [upsertStrategy, if_neg he, List.filter_cons_of_neg (by simp [he])]
      apply ih
      rwa [List.filter_cons_of_neg (by simp [he])] at hcount

theorem filter_upsert_neg (es : List ExecutableStrategy) (t : String)
    (s : ExecutableStrategy) (hs : s.target = t) :
    (upsertStrategy es t s).filter (fun e => ¬ e.target = t) =
      es.filter (fun e => ¬ e.target = t) := by
  induction es with
  | nil => simp [upsertStrategy, hs]
  | cons e rest ih =>
    by_cases he : e.target = t
    · rw [upsertStrategy, if_pos he,
        List.filter_cons_of_neg (by simp [hs]),
        List.filter_cons_of_neg (by simp [he])]
    · rw [upsertStrategy, if_neg he,
        List.filter_cons_of_pos (by simp [he]),
        List.filter_cons_of_pos (by simp [he]), ih]

/-- C9: for every protocol satisfying the at-most-one-strategy-per-target
invariant and every supported target, after N ≥ 1 calls to
`protocol.compile(target)` the stored strategies contain exactly one entry
for that target, it equals the strategy returned by the most recent call,
and entries for other targets are unchanged. -/
theorem C9_compile_upsert (p : ProtocolDefinition) (target : String)
    (n : Nat) (hn : 1 ≤ n)
    (hsup : target = Target.PUBMED ∨ target = Target.LANCEDB ∨
      target = Target.GRAPH)
    (hcount : (p.execution_strategies.filter
      (fun e => e.target = target)).length ≤ 1) :
    ∃ s, s.target = target ∧
      protocolCompile (compileN p target (n - 1)) target =
        .ok (compileN p target n, [s]) ∧
      (compileN p target n).execution_strategies.filter
        (fun e => e.target = target) = [s] ∧
      (compileN p target n).execution_strategies.filter
        (fun e => ¬ e.target = target) =
        p.execution_strategies.filter (fun e => ¬ e.target = target) := by
  obtain ⟨s, hs, hst⟩ : ∃ s, strategyCompile p target = .ok s ∧
      s.target = target := by
    rcases hsup with h | h | h <;> subst h <;> exact ⟨_, rfl, rfl⟩
  have hes : ∀ (q : ProtocolDefinition) es2,
      strategyCompile { q with execution_strategies := es2 } target =
        strategyCompile q target := fun q es2 => rfl
  have hinv : ∀ m, strategyCompile (compileN p target m) target = .ok s := by
    intro m
    induction m with
    | zero => exact hs
    | succ k ih =>
      rw [compileN]
      unfold protocolCompile
      rw [ih]
      exact (hes _ _).trans ih
  have hsteps : ∀ m, compileN p target (m + 1) =
      compileStep (compileN p target m) target s := by
    intro m
    rw [compileN]
    unfold protocolCompile compileStep
    rw [hinv m]
  have hmain : ∀ m,
      (compileN p target (m + 1)).execution_strategies.filter
        (fun e => e.target = target) = [s] ∧
      (compileN p target (m + 1)).execution_strategies.filter
        (fun e => ¬ e.target = target) =
        p.execution_strategies.filter (fun e => ¬ e.target = target) := by
    intro m
    induction m with
    | zero =>
      rw [hsteps 0]
      simp only [compileStep]
      exact ⟨filter_upsert_pos _ _ _ hst hcount,
        filter_upsert_neg _ _ _ hst⟩
    | succ k ih =>
      rw [hsteps (k + 1)]
      simp only [compileStep]
      constructor
      · exact filter_upsert_pos _ _ _ hst (by rw [ih.1]; simp)
      · rw [filter_upsert_neg _ _ _ hst, ih.2]
  obtain ⟨m, rfl⟩ : ∃ m, n = m + 1 := ⟨n - 1, by omega⟩
  refine ⟨s, hst, ?_, (hmain m).1, (hmain m).2⟩
  have hm1 : m + 1 - 1 = m := by omega
  rw [hm1, hsteps m]
  unfold protocolCompile compileStep
  rw [hinv m]

/-- C9 witness: two LANCEDB compiles of a concrete protocol leave exactly
one LANCEDB strategy, equal to the second call's result, with other
entries (none here) unchanged. -/
theorem C9_compile_upsert_witness :
    ∃ s : ExecutableStrategy, s.target = Target.LANCEDB ∧
      protocolCompile (compileN invalidDraftProtocol Target.LANCEDB 1)
        Target.LANCEDB =
        .ok (compileN invalidDraftProtocol Target.LANCEDB 2, [s]) ∧
      List.filter (fun e => e.target = Target.LANCEDB)
        (compileN invalidDraftProtocol Target.LANCEDB 2).execution_strategies =
        [s] ∧
      List.filter (fun e => ¬ e.target = Target.LANCEDB)
        (compileN invalidDraftProtocol Target.LANCEDB 2).execution_strategies =
        List.filter (fun e => ¬ e.target = Target.LANCEDB)
          invalidDraftProtocol.execution_strategies := by
  have h := C9_compile_upsert invalidDraftProtocol Target.LANCEDB 2
    (by omega) (Or.inr (Or.inl rfl)) (by decide)
  simpa using h

theorem dictLookup_modify {α : Type} (d : List (String × α)) (k : String)
    (f : α → α) :
    dictLookup (dictModify d k f) k = (dictLookup d k).map f := by
  induction d with
  | nil => simp [dictModify, dictLookup]
  | cons kv rest ih =>
    obtain ⟨key, v⟩ := kv
    by_cases hk : key = k
    · simp [dictModify, dictLookup, hk]
    · simp [dictModify, dictLookup, hk, ih]

theorem dictLookup_append_new {α : Type} (d : List (String × α)) (k : String)
    (nb : α) (h : dictLookup d k = none) :
    dictLookup (d ++ [(k, nb)]) k = some nb := by
  induction d with
  | nil => simp [dictLookup]
  | cons kv rest ih =>
    obtain ⟨key, v⟩ := kv
    by_cases hk : key = k
    · rw [dictLookup, if_pos hk] at h
      simp at h
    · rw [dictLookup, if_neg hk] at h
      rw [List.cons_append, dictLookup, if_neg hk]
      exact ih h

/-- C10: `inject_term` aliases and mutates the caller-supplied term object.
In the heap model (heap reference `r` is the caller's term object): on a
successful injection the object stored at `r` has its `origin` overwritten
to HUMAN_INJECTION in place (all its other fields unchanged, all other heap
cells untouched) and that same reference `r` is appended to the target
block's term list; on the same-block duplicate no-op path the function
returns before the overwrite, so the heap — in particular the caller's
object — and the protocol are left completely unmodified. -/
theorem C10_inject_term_aliasing (heap : List OntologyTerm) (p : ProtocolH)
    (block_type : String) (r : Nat) (term : OntologyTerm)
    (hst : p.status = .DRAFT ∨ p.status = .PENDING_REVIEW)
    (hr : heap.get? r = some term) :
    (findDupBlockH heap p.pico_structure term.id = none →
      (dictLookup p.pico_structure block_type).isSome = true ∨
        (block_type = "P" ∨ block_type = "I" ∨ block_type = "C" ∨
         block_type = "O" ∨ block_type = "S") →
      ∃ heap2 p2,
        injectTermH heap p block_type r = (.ok (), (heap2, p2)) ∧
        heap2.get? r = some { term with origin := .HUMAN_INJECTION } ∧
        (∀ r2, r2 ≠ r → heap2.get? r2 = heap.get? r2) ∧
        ∃ blk2, dictLookup p2.pico_structure block_type = some blk2 ∧
          blk2.terms = (match dictLookup p.pico_structure block_type with
            | some blk => blk.terms
            | none => []) ++ [r]) ∧
    (∀ bt, findDupBlockH heap p.pico_structure term.id = some bt →
      block_type = bt →
      injectTermH heap p block_type r = (.ok (), (heap, p))) := by
  have hA : ¬ p.status = .APPROVED := by
    rcases hst with h | h <;> simp [h]
  have hE : ¬ p.status = .EXECUTED := by
    rcases hst with h | h <;> simp [h]
  have hDP : ¬ (p.status ≠ .DRAFT ∧ p.status ≠ .PENDING_REVIEW) := by
    rcases hst with h | h <;> simp [h]
  constructor
  · intro hdup hexists
    have hheap2 : (heap.set r { term with origin := .HUMAN_INJECTION }).get? r =
        some { term with origin := .HUMAN_INJECTION } := by
      rw [List.get?_set_eq, hr]
      rfl
    have hother : ∀ r2, r2 ≠ r →
        (heap.set r { term with origin := .HUMAN_INJECTION }).get? r2 =
          heap.get? r2 := by
      intro r2 h2
      exact List.get?_set_ne _ _ (fun hh => h2 hh.symm)
    rcases hc : dictLookup p.pico_structure block_type with _ | blk
    · -- the target block does not exist: it is created, validated
      have hbtv : block_type = "P" ∨ block_type = "I" ∨ block_type = "C" ∨
          block_type = "O" ∨ block_type = "S" := by
        rcases hexists with hx | hx
        · rw [hc] at hx
          simp at hx
        · exact hx
      have hcontains : dictContains p.pico_structure block_type = false := by
        simp [dictContains, hc]
      refine ⟨heap.set r { term with origin := .HUMAN_INJECTION },
        withPico p (dictModify (p.pico_structure ++
            [(block_type, ⟨block_type, block_type, [], "OR"⟩)])
          block_type
          (fun b => { b with terms := b.terms ++ [r] })), ?_, hheap2,
        hother, ?_⟩
      · unfold injectTermH withPico
        rw [if_neg hA, if_neg hE, if_neg hDP, hr]
        simp only []
        rw [hdup]
        simp only [hcontains, Bool.false_eq_true, if_false]
        rw [validateBlockType, if_pos hbtv]
      · simp only [withPico]
        rw [dictLookup_modify, dictLookup_append_new _ _ _ hc]
        exact ⟨_, rfl, rfl⟩
    · -- the target block exists: its term list is appended to in place
      have hcontains : dictContains p.pico_structure block_type = true := by
        simp [dictContains, hc]
      refine ⟨heap.set r { term with origin := .HUMAN_INJECTION },
        withPico p (dictModify p.pico_structure block_type
          (fun b => { b with terms := b.terms ++ [r] })), ?_, hheap2,
        hother, ?_⟩
      · unfold injectTermH withPico
        rw [if_neg hA, if_neg hE, if_neg hDP, hr]
        simp only []
        rw [hdup]
        simp only [hcontains, if_true]
      · simp only [withPico]
        rw [dictLookup_modify, hc]
        exact ⟨_, rfl, rfl⟩
  · intro bt hdup hbt
    unfold injectTermH
    rw [if_neg hA, if_neg hE, if_neg hDP, hr]
    simp only []
    rw [hdup]
    simp [hbt]

/-- C10 witness: in a concrete heap with the caller's term at reference 1,
injecting into an existing block P mutates that very object's origin in
place and appends reference 1 to P's term list; injecting a term whose id
already lives in P into P leaves heap and protocol untouched. -/
theorem C10_inject_term_aliasing_witness :
    (∃ heap2 p2,
      injectTermH
        [⟨"t0", "Existing", "MeSH", "C0", .USER_INPUT, true, none⟩,
         ⟨"t9", "Fresh", "SNOMED", "C9", .USER_INPUT, true, none⟩]
        ⟨"ph", "T", "Q", [("P", ⟨"P", "Pop", [0], "OR"⟩)], [], .DRAFT, none⟩
        "P" 1 = (.ok (), (heap2, p2)) ∧
      heap2.get? 1 =
        some ⟨"t9", "Fresh", "SNOMED", "C9", .HUMAN_INJECTION, true, none⟩ ∧
      (∀ r2, r2 ≠ 1 → heap2.get? r2 =
        ([⟨"t0", "Existing", "MeSH", "C0", .USER_INPUT, true, none⟩,
          ⟨"t9", "Fresh", "SNOMED", "C9", .USER_INPUT, true, none⟩] :
          List OntologyTerm).get? r2) ∧
      ∃ blk2, dictLookup p2.pico_structure "P" = some blk2 ∧
        blk2.terms = [0, 1]) ∧
    injectTermH
      [⟨"t0", "Existing", "MeSH", "C0", .USER_INPUT, true, none⟩,
       ⟨"t0", "같", "SNOMED", "C9", .USER_INPUT, true, none⟩]
      ⟨"ph", "T", "Q", [("P", ⟨"P", "Pop", [0], "OR"⟩)], [], .DRAFT, none⟩
      "P" 1 =
      (.ok (),
       ([⟨"t0", "Existing", "MeSH", "C0", .USER_INPUT, true, none⟩,
         ⟨"t0", "같", "SNOMED", "C9", .USER_INPUT, true, none⟩],
        ⟨"ph", "T", "Q", [("P", ⟨"P", "Pop", [0], "OR"⟩)], [], .DRAFT,
         none⟩)) := by
  constructor
  · obtain ⟨heap2, p2, h1, h2, h3, blk2, h4, h5⟩ :=
      (C10_inject_term_aliasing
        [⟨"t0", "Existing", "MeSH", "C0", .USER_INPUT, true, none⟩,
         ⟨"t9", "Fresh", "SNOMED", "C9", .USER_INPUT, true, none⟩]
        ⟨"ph", "T", "Q", [("P", ⟨"P", "Pop", [0], "OR"⟩)], [], .DRAFT, none⟩
        "P" 1 ⟨"t9", "Fresh", "SNOMED", "C9", .USER_INPUT, true, none⟩
        (Or.inl rfl) rfl).1 (by decide) (Or.inl (by decide))
    exact ⟨heap2, p2, h1, h2, h3, blk2, h4, by simpa using h5⟩
  · exact (C10_inject_term_aliasing
      [⟨"t0", "Existing", "MeSH", "C0", .USER_INPUT, true, none⟩,
       ⟨"t0", "같", "SNOMED", "C9", .USER_INPUT, true, none⟩]
      ⟨"ph", "T", "Q", [("P", ⟨"P", "Pop", [0], "OR"⟩)], [], .DRAFT, none⟩
      "P" 1 ⟨"t0", "같", "SNOMED", "C9", .USER_INPUT, true, none⟩
      (Or.inl rfl) rfl).2 "P" (by decide) rfl

end CoreasonProtocol
